import Mathlib

/-!
Shallow embedding of `src/archinstall/lib/models/users.py`: the password
strength classifier (`PasswordStrength.strength` and
`PasswordStrength._check_password_strength`) and the user configuration
parser (`User._parse`, `User._parse_backwards_compatible`,
`User.parse_arguments`, `User.json`).
-/

/-- The `PasswordStrength` enumeration (users.py lines 13-17).  The
translated display label and the color are external concerns and are not
modelled; only the four variants matter to the classifier. -/
inductive PasswordStrength where
  | VERY_WEAK
  | WEAK
  | MODERATE
  | STRONG
deriving DecidableEq, Repr

/-- Rank of a strength category under the order
VeryWeak < Weak < Moderate < Strong. -/
def PasswordStrength.rank : PasswordStrength → Nat
  | .VERY_WEAK => 0
  | .WEAK => 1
  | .MODERATE => 2
  | .STRONG => 3

namespace PasswordStrength

/-- `PasswordStrength._check_password_strength` (users.py lines 51-103).
Each Python `match length` with guard cases is rendered as the same chain
of interval tests; when no guarded case fires, control falls through to
the final `return PasswordStrength.VERY_WEAK` on line 103, rendered here
as the trailing `.VERY_WEAK` in every branch.  `length` is a `Nat`
because `len(password) >= 0`. -/
def check_password_strength (digit upper lower symbol : Bool) (length : Nat) :
    PasswordStrength :=
  if digit && upper && lower && symbol then
    if 13 ≤ length then .STRONG
    else if 11 ≤ length ∧ length ≤ 12 then .MODERATE
    else if 7 ≤ length ∧ length ≤ 10 then .WEAK
    else if length ≤ 6 then .VERY_WEAK
    else .VERY_WEAK
  else if digit && upper && lower then
    if 14 ≤ length then .STRONG
    else if 11 ≤ length ∧ length ≤ 13 then .MODERATE
    else if 7 ≤ length ∧ length ≤ 10 then .WEAK
    else if length ≤ 6 then .VERY_WEAK
    else .VERY_WEAK
  else if upper && lower then
    if 15 ≤ length then .STRONG
    else if 12 ≤ length ∧ length ≤ 14 then .MODERATE
    else if 7 ≤ length ∧ length ≤ 11 then .WEAK
    else if length ≤ 6 then .VERY_WEAK
    else .VERY_WEAK
  else if lower || upper then
    if 18 ≤ length then .STRONG
    else if 14 ≤ length ∧ length ≤ 17 then .MODERATE
    else if 9 ≤ length ∧ length ≤ 13 then .WEAK
    else if length ≤ 8 then .VERY_WEAK
    else .VERY_WEAK
  else
    .VERY_WEAK

end PasswordStrength

/-- A password character, abstracted to the four Unicode classification
predicates the classifier consults: Python's `str.isdigit`, `str.isupper`,
`str.islower` and `str.isalnum` on a one-character string.  The Unicode
tables themselves are outside the program; a character is modelled by the
answers those predicates give for it. -/
structure PyChar where
  isdigit : Bool
  isupper : Bool
  islower : Bool
  isalnum : Bool
deriving DecidableEq, Repr

/-- `any(character.isdigit() for character in password)` (users.py line 45). -/
def hasDigit (password : List PyChar) : Bool := password.any (·.isdigit)

/-- `any(character.isupper() for character in password)` (users.py line 46). -/
def hasUpper (password : List PyChar) : Bool := password.any (·.isupper)

/-- `any(character.islower() for character in password)` (users.py line 47). -/
def hasLower (password : List PyChar) : Bool := password.any (·.islower)

/-- `any(not character.isalnum() for character in password)` (users.py line 48). -/
def hasSymbol (password : List PyChar) : Bool := password.any (fun c => !c.isalnum)

/-- `PasswordStrength.strength` (users.py lines 43-49): compute the four
character-class flags and dispatch to `_check_password_strength` together
with the password's length. -/
def PasswordStrength.strength (password : List PyChar) : PasswordStrength :=
  PasswordStrength.check_password_strength
    (hasDigit password) (hasUpper password) (hasLower password) (hasSymbol password)
    password.length

/-- Composition tiers of the specification's scoring table (spec section 4.1). -/
inductive Tier where
  | A
  | B
  | C
  | D
  | E
deriving DecidableEq, Repr

/-- Tier selection exactly as the specification words it (spec section 4.1
step 2): first matching tier in priority order A, B, C, D, E. -/
def specTier (digit upper lower symbol : Bool) : Tier :=
  if digit && upper && lower && symbol then .A
  else if digit && upper && lower then .B
  else if upper && lower then .C
  else if lower || upper then .D
  else .E

/-- The specification's tier-specific length bands (spec section 4.1 step 3):
tier A: ≤6 VeryWeak, 7-10 Weak, 11-12 Moderate, ≥13 Strong; tier B: ≤6,
7-10, 11-13, ≥14; tier C: ≤6, 7-11, 12-14, ≥15; tier D: ≤8, 9-13, 14-17,
≥18; tier E: always VeryWeak. -/
def specBand : Tier → Nat → PasswordStrength
  | .A, len =>
    if len ≤ 6 then .VERY_WEAK
    else if len ≤ 10 then .WEAK
    else if len ≤ 12 then .MODERATE
    else .STRONG
  | .B, len =>
    if len ≤ 6 then .VERY_WEAK
    else if len ≤ 10 then .WEAK
    else if len ≤ 13 then .MODERATE
    else .STRONG
  | .C, len =>
    if len ≤ 6 then .VERY_WEAK
    else if len ≤ 11 then .WEAK
    else if len ≤ 14 then .MODERATE
    else .STRONG
  | .D, len =>
    if len ≤ 8 then .VERY_WEAK
    else if len ≤ 13 then .WEAK
    else if len ≤ 17 then .MODERATE
    else .STRONG
  | .E, _ => .VERY_WEAK

/-- A configuration entry of the current shape, modelling the
`_UserSerialization` TypedDict (users.py line 106) as a JSON object whose
three keys may each be missing.  For `username` the model also
distinguishes a key present with an explicit null (`some none`) from an
absent key (`none`), because both reach `entry.get('username', None)` as
`None`. -/
structure Entry where
  username : Option (Option String)
  password : Option String
  «sudo» : Option Bool
deriving DecidableEq, Repr

/-- `entry.get('username', None)` (users.py line 133): absent key and
explicit null both yield `none`. -/
def Entry.getUsername (e : Entry) : Option String := e.username.getD none

/-- `entry.get('!password', '')` (users.py line 134). -/
def Entry.getPassword (e : Entry) : String := e.password.getD ""

/-- `entry.get('sudo', False)` (users.py line 135). -/
def Entry.getSudo (e : Entry) : Bool := e.sudo.getD false

/-- The `User` dataclass (users.py lines 109-113).  Dataclass equality is
structural, matched by `DecidableEq` on the fields. -/
structure User where
  username : String
  password : String
  «sudo» : Bool
deriving DecidableEq, Repr

/-- `User.json` (users.py lines 121-126): serialize a record to the
current entry shape with all three keys present. -/
def User.json (u : User) : Entry :=
  { username := some (some u.username), password := some u.password, «sudo» := some u.sudo }

/-- `User._parse` (users.py lines 128-143): walk the entries in order,
`continue` past an entry whose username lookup gives `None`, otherwise
append one `User` built from the entry's fields with their defaults. -/
def User._parse : List Entry → List User
  | [] => []
  | entry :: rest =>
    match entry.getUsername with
    | none => User._parse rest
    | some username =>
      { username := username, password := entry.getPassword, «sudo» := entry.getSudo }
        :: User._parse rest

/-- A legacy sub-mapping `dict[str, str]`, as an insertion-ordered
association list with distinct keys. -/
abbrev SubMap : Type := List (String × String)

/-- A legacy mapping `dict[str, dict[str, str]]` from username to
sub-mapping, as an insertion-ordered association list with distinct keys. -/
abbrev LegacyDict : Type := List (String × SubMap)

/-- Python `d[k]` on a dict modelled as an ordered association list:
`some` the first value stored under `k`, `none` when the lookup would
raise `KeyError`. -/
def dictGet {α : Type} (d : List (String × α)) (key : String) : Option α :=
  (d.find? (fun p => p.1 == key)).map (·.2)

/-- The literal key `'!password'` used by the parser. -/
def passwordKey : String := "!password"

/-- `User._parse_backwards_compatible` (users.py lines 145-154): when the
mapping is non-empty, take its first key, index the mapping at that key
and the sub-mapping at `'!password'` (each a `KeyError` — `.error` — when
the key is missing), and produce one record when the password is truthy
(a non-empty string); otherwise produce none. -/
def User._parse_backwards_compatible (config_users : LegacyDict) («sudo» : Bool) :
    Except String (List User) :=
  match config_users with
  | [] => .ok []
  | (firstKey, _) :: _ =>
    match dictGet config_users firstKey with
    | none => .error "KeyError"
    | some sub =>
      match dictGet sub passwordKey with
      | none => .error "KeyError"
      | some password =>
        if password ≠ "" then
          .ok [{ username := firstKey, password := password, «sudo» := «sudo» }]
        else
          .ok []

/-- The two accepted shapes of `config_users` (users.py line 159):
a list of current-shape entries, or a legacy mapping (the
`isinstance(config_users, dict)` branch). -/
inductive UsersInput where
  | current : List Entry → UsersInput
  | legacy : LegacyDict → UsersInput

/-- `User.parse_arguments` (users.py lines 156-174): records from
`config_users` per its shape, followed by the records from a legacy
`config_superusers` when one is given (`sudo` forced `true` there). -/
def User.parse_arguments (config_users : UsersInput)
    (config_superusers : Option LegacyDict) : Except String (List User) :=
  let users : List User := []
  match (match config_users with
         | .legacy d => User._parse_backwards_compatible d false
         | .current l => .ok (User._parse l)) with
  | .error e => .error e
  | .ok us =>
    let users := users ++ us
    match config_superusers with
    | some d =>
      match User._parse_backwards_compatible d true with
      | .error e => .error e
      | .ok sus => .ok (users ++ sus)
    | none => .ok users

/-- A legacy mapping is well formed when each of its sub-mappings holds
the `'!password'` key — the shape users.py line 149 indexes without
checking. -/
def legacyWF (d : LegacyDict) : Prop :=
  ∀ p ∈ d, (dictGet p.2 passwordKey).isSome

/-- Well-formed input to `parse_arguments`: when `config_users` is
legacy-shaped it is a well-formed legacy mapping, and so is
`config_superusers` when present. -/
def WellFormedInput (ui : UsersInput) (sup : Option LegacyDict) : Prop :=
  (∀ d, ui = .legacy d → legacyWF d) ∧ ∀ d, sup = some d → legacyWF d

/-- Every username carried by the input is a non-empty string: for a
current-shape list, every entry's username value; for a legacy mapping,
every key. -/
def UsersInput.usernamesNonEmpty : UsersInput → Prop
  | .current l => ∀ e ∈ l, ∀ u, e.getUsername = some u → u ≠ ""
  | .legacy d => ∀ p ∈ d, p.1 ≠ ""

section Helpers

set_option maxHeartbeats 1000000 in
/-- The code's branch-and-match classifier agrees with the specification's
tier/band table at every flag combination and every length. -/
lemma check_eq_specBand (digit upper lower symbol : Bool) (length : Nat) :
    PasswordStrength.check_password_strength digit upper lower symbol length
      = specBand (specTier digit upper lower symbol) length := by
  cases digit <;> cases upper <;> cases lower <;> cases symbol <;>
    simp [PasswordStrength.check_password_strength, specTier, specBand] <;>
    split_ifs <;> first | rfl | omega

/-- In every tier, the band table is monotone in length under `rank`. -/
lemma specBand_rank_mono (t : Tier) {l1 l2 : Nat} (h : l1 ≤ l2) :
    (specBand t l1).rank ≤ (specBand t l2).rank := by
  cases t <;>
    simp only [specBand] <;>
    first
      | (split_ifs <;> simp only [PasswordStrength.rank] <;> omega)
      | simp only [PasswordStrength.rank, Nat.le_refl]

end Helpers

/-- Claim C1: for every password, `strength` selects the first matching
composition tier in priority order A (digit, upper, lower, symbol), B
(digit, upper, lower), C (upper, lower), D (lower or upper), E (none),
and returns the category given by that tier's length bands: A: ≤6
VeryWeak, 7-10 Weak, 11-12 Moderate, ≥13 Strong; B: ≤6, 7-10, 11-13,
≥14; C: ≤6, 7-11, 12-14, ≥15; D: ≤8, 9-13, 14-17, ≥18; E: always
VeryWeak — stated both on the flag-level classifier and on whole
passwords. -/
theorem check_matches_spec_table :
    (∀ digit upper lower symbol length,
      PasswordStrength.check_password_strength digit upper lower symbol length
        = specBand (specTier digit upper lower symbol) length)
    ∧ ∀ password : List PyChar,
        PasswordStrength.strength password
          = specBand
              (specTier (hasDigit password) (hasUpper password)
                (hasLower password) (hasSymbol password))
              password.length := by
  refine ⟨check_eq_specBand, fun password => ?_⟩
  simpa only [PasswordStrength.strength] using
    check_eq_specBand (hasDigit password) (hasUpper password) (hasLower password)
      (hasSymbol password) password.length

/-- Claim C2: `strength` computes the four character-class flags so that
hasDigit, hasUpper, hasLower hold iff some character of the password is a
digit, upper-case letter, lower-case letter respectively, hasSymbol holds
iff some character fails the alphanumeric test, and the category is
obtained by handing exactly these flags (with the length) to the
classifier.  A character's digit/upper/lower/alphanumeric classification
is the Unicode-aware one, carried by the `PyChar` model. -/
theorem strength_flags_spec (password : List PyChar) :
    ((hasDigit password = true) ↔ ∃ c ∈ password, c.isdigit = true)
    ∧ ((hasUpper password = true) ↔ ∃ c ∈ password, c.isupper = true)
    ∧ ((hasLower password = true) ↔ ∃ c ∈ password, c.islower = true)
    ∧ ((hasSymbol password = true) ↔ ∃ c ∈ password, c.isalnum = false)
    ∧ PasswordStrength.strength password
        = PasswordStrength.check_password_strength (hasDigit password)
            (hasUpper password) (hasLower password) (hasSymbol password)
            password.length := by
  refine ⟨?_, ?_, ?_, ?_, rfl⟩ <;>
    simp [hasDigit, hasUpper, hasLower, hasSymbol, List.any_eq_true]

/-- Claim C3: a password with no upper-case and no lower-case character —
the empty string and digit/symbol-only passwords included — is classified
VeryWeak, regardless of length. -/
theorem strength_no_letters_very_weak (password : List PyChar)
    (h : ∀ c ∈ password, c.isupper = false ∧ c.islower = false) :
    PasswordStrength.strength password = .VERY_WEAK := by
  have hu : hasUpper password = false := by
    simp only [hasUpper, List.any_eq_false]
    intro c hc
    simp [(h c hc).1]
  have hl : hasLower password = false := by
    simp only [hasLower, List.any_eq_false]
    intro c hc
    simp [(h c hc).2]
  simp [PasswordStrength.strength, hu, hl, PasswordStrength.check_password_strength]

/-- Witness for C3 at a concrete input: twenty digit characters. -/
theorem strength_no_letters_very_weak_wit :
    PasswordStrength.strength
        (List.replicate 20 { isdigit := true, isupper := false, islower := false, isalnum := true })
      = .VERY_WEAK :=
  strength_no_letters_very_weak _ (by decide)

/-- Claim C10: at every fixed combination of the four character-class
flags, the length-to-category mapping of the classifier is monotone
nondecreasing in length, under the order VeryWeak < Weak < Moderate <
Strong (encoded by `PasswordStrength.rank`). -/
theorem check_monotone_in_length (digit upper lower symbol : Bool)
    (l1 l2 : Nat) (h : l1 ≤ l2) :
    (PasswordStrength.check_password_strength digit upper lower symbol l1).rank
      ≤ (PasswordStrength.check_password_strength digit upper lower symbol l2).rank := by
  rw [check_eq_specBand, check_eq_specBand]
  exact specBand_rank_mono _ h

/-- Witness for C10 at a concrete input: tier A, lengths 8 and 13. -/
theorem check_monotone_in_length_wit :
    (PasswordStrength.check_password_strength true true true true 8).rank
      ≤ (PasswordStrength.check_password_strength true true true true 13).rank :=
  check_monotone_in_length true true true true 8 13 (by decide)


section ParserHelpers

/-- Indexing an association-list dict at its first key returns the first
value. -/
lemma dictGet_cons_self {α : Type} (k : String) (v : α) (t : List (String × α)) :
    dictGet ((k, v) :: t) k = some v := by
  simp [dictGet, List.find?]

/-- Characterization of `_parse_backwards_compatible`: only the first
entry of the mapping is consulted. -/
lemma pbc_eq (d : LegacyDict) (s : Bool) :
    User._parse_backwards_compatible d s
      = (match d with
         | [] => .ok []
         | (u, sub) :: _ =>
           match dictGet sub passwordKey with
           | none => .error "KeyError"
           | some password =>
             if password ≠ "" then
               .ok [{ username := u, password := password, «sudo» := s }]
             else
               .ok []) := by
  match d with
  | [] => rfl
  | (u, sub) :: rest =>
    simp only [User._parse_backwards_compatible, dictGet_cons_self]

/-- What an `.ok` result of `_parse_backwards_compatible` can be: either
no record, or exactly one record made of the mapping's first key and that
key's non-empty password, with the given `sudo` flag. -/
lemma pbc_ok_cases {d : LegacyDict} {s : Bool} {xs : List User}
    (h : User._parse_backwards_compatible d s = .ok xs) :
    xs = [] ∨
      ∃ u sub rest pw, d = (u, sub) :: rest ∧ dictGet sub passwordKey = some pw ∧
        pw ≠ "" ∧ xs = [{ username := u, password := pw, «sudo» := s }] := by
  rw [pbc_eq] at h
  match d with
  | [] =>
    left
    simpa using h.symm
  | (u, sub) :: rest =>
    simp only at h
    split at h
    next hpw => exact absurd h (by simp)
    next pw hpw =>
      split at h
      next hne =>
        right
        exact ⟨u, sub, rest, pw, rfl, hpw, hne, by simpa using h.symm⟩
      next hne =>
        left
        simpa using h.symm

/-- On a well-formed legacy mapping (each sub-mapping holds the
`'!password'` key), `_parse_backwards_compatible` succeeds. -/
lemma pbc_wf_ok {d : LegacyDict} (hwf : legacyWF d) (s : Bool) :
    ∃ xs, User._parse_backwards_compatible d s = .ok xs := by
  rw [pbc_eq]
  match d with
  | [] => exact ⟨[], rfl⟩
  | (u, sub) :: rest =>
    have hmem : (u, sub) ∈ (u, sub) :: rest := by simp
    obtain ⟨pw, hpw⟩ := Option.isSome_iff_exists.mp (hwf (u, sub) hmem)
    simp only [hpw]
    by_cases hne : pw = ""
    · exact ⟨[], by simp [hne]⟩
    · exact ⟨[{ username := u, password := pw, «sudo» := s }], by simp [hne]⟩

/-- `User._parse` is the order-preserving filter-map of the entry list:
entries whose username lookup yields `none` are skipped, every other
entry yields exactly one record built from its fields with the documented
defaults. -/
lemma parse_eq_filterMap (entries : List Entry) :
    User._parse entries
      = entries.filterMap (fun e =>
          e.getUsername.map fun u =>
            { username := u, password := e.getPassword, «sudo» := e.getSudo }) := by
  induction entries with
  | nil => rfl
  | cons e rest ih =>
    cases h : e.getUsername with
    | none => simp [User._parse, h, ih]
    | some u => simp [User._parse, h, ih]

/-- Every record produced by `User._parse` takes its username from an
entry of the list. -/
lemma parse_username {entries : List Entry} :
    ∀ r ∈ User._parse entries, ∃ e ∈ entries, e.getUsername = some r.username := by
  induction entries with
  | nil => simp [User._parse]
  | cons e rest ih =>
    intro r hr
    cases h : e.getUsername with
    | none =>
      rw [User._parse, h] at hr
      obtain ⟨e', he', hu⟩ := ih r hr
      exact ⟨e', by simp [he'], hu⟩
    | some u =>
      rw [User._parse, h] at hr
      rcases List.mem_cons.mp hr with heq | htail
      · exact ⟨e, by simp, by simp [h, heq]⟩
      · obtain ⟨e', he', hu⟩ := ih r htail
        exact ⟨e', by simp [he'], hu⟩

/-- `parse_arguments` on a current-shape list with no superusers input. -/
lemma pa_current_none (l : List Entry) :
    User.parse_arguments (.current l) none = .ok (User._parse l) := rfl

/-- `parse_arguments` on a legacy-shape mapping with no superusers input. -/
lemma pa_legacy_none {d : LegacyDict} {a : List User}
    (h : User._parse_backwards_compatible d false = .ok a) :
    User.parse_arguments (.legacy d) none = .ok a := by
  simp [User.parse_arguments, h]

/-- The merge rule of `parse_arguments`: the superusers records are
appended after the records of `config_users`. -/
lemma pa_append {ui : UsersInput} {sup : LegacyDict} {us ss : List User}
    (h1 : User.parse_arguments ui none = .ok us)
    (h2 : User._parse_backwards_compatible sup true = .ok ss) :
    User.parse_arguments ui (some sup) = .ok (us ++ ss) := by
  cases ui with
  | current l =>
    rw [pa_current_none, Except.ok.injEq] at h1
    simp [User.parse_arguments, h2, h1]
  | legacy d =>
    cases hd : User._parse_backwards_compatible d false with
    | error e => simp [User.parse_arguments, hd] at h1
    | ok a =>
      have h1' := pa_legacy_none hd
      rw [h1', Except.ok.injEq] at h1
      simp [User.parse_arguments, hd, h2, h1]

end ParserHelpers

section MoreHelpers

/-- Splitting a successful `parse_arguments` run with a superusers input
into its two parts. -/
lemma pa_ok_split {ui : UsersInput} {sup : LegacyDict} {us : List User}
    (h : User.parse_arguments ui (some sup) = .ok us) :
    ∃ a b, us = a ++ b ∧ User.parse_arguments ui none = .ok a
      ∧ User._parse_backwards_compatible sup true = .ok b := by
  cases ui with
  | current l =>
    cases hs : User._parse_backwards_compatible sup true with
    | error e => simp [User.parse_arguments, hs] at h
    | ok b =>
      refine ⟨User._parse l, b, ?_, pa_current_none l, rfl⟩
      simp only [User.parse_arguments, hs] at h
      simpa using h.symm
  | legacy d =>
    cases hd : User._parse_backwards_compatible d false with
    | error e => simp [User.parse_arguments, hd] at h
    | ok a =>
      cases hs : User._parse_backwards_compatible sup true with
      | error e => simp [User.parse_arguments, hd, hs] at h
      | ok b =>
        refine ⟨a, b, ?_, pa_legacy_none hd, rfl⟩
        simp only [User.parse_arguments, hd, hs] at h
        simpa using h.symm

/-- With no superusers input, every record of a successful
`parse_arguments` run takes a non-empty username from an input whose
usernames are all non-empty. -/
lemma pa_none_usernames {ui : UsersInput} {us : List User}
    (h1 : ui.usernamesNonEmpty) (h : User.parse_arguments ui none = .ok us) :
    ∀ r ∈ us, r.username ≠ "" := by
  cases ui with
  | current l =>
    rw [pa_current_none, Except.ok.injEq] at h
    intro r hr
    rw [← h] at hr
    obtain ⟨e, he, hu⟩ := parse_username r hr
    exact h1 e he r.username hu
  | legacy d =>
    cases hd : User._parse_backwards_compatible d false with
    | error e => simp [User.parse_arguments, hd] at h
    | ok a =>
      rw [pa_legacy_none hd, Except.ok.injEq] at h
      intro r hr
      rw [← h] at hr
      rcases pbc_ok_cases hd with rfl | ⟨u, sub, rest, pw, hdd, hpw, hne, rfl⟩
      · simp at hr
      · subst hdd
        have hu : r.username = u := by
          simp at hr
          simp [hr]
        rw [hu]
        exact h1 (u, sub) (by simp)

end MoreHelpers

/-- Claim C4: on a current-shape ordered sequence of entries, the parser
silently skips every entry whose username key is absent or explicitly
null (both reach the getter as `none`), and produces for each remaining
entry exactly one record, in input order, with the entry's username, its
`'!password'` value defaulting to the empty string when absent, and its
`'sudo'` value defaulting to `false` when absent. -/
theorem parse_current_shape_spec :
    (∀ e : Entry, e.getUsername = none ↔ (e.username = none ∨ e.username = some none))
    ∧ ∀ entries : List Entry,
        User._parse entries
          = entries.filterMap (fun e =>
              e.getUsername.map fun u =>
                { username := u, password := e.getPassword, «sudo» := e.getSudo }) := by
  refine ⟨fun e => ?_, parse_eq_filterMap⟩
  cases h : e.username with
  | none => simp [Entry.getUsername, h]
  | some o => cases o <;> simp [Entry.getUsername, h]

/-- Claim C5: on a legacy-shape mapping used as `config_users`, only the
first key in insertion order is consulted — all later entries are ignored
— and when the first entry's password is empty zero records are produced,
otherwise exactly one record with `sudo = false`. -/
theorem parse_legacy_first_key_only (u : String) (sub : SubMap) (rest : LegacyDict)
    (pw : String) (h : dictGet sub passwordKey = some pw) :
    User.parse_arguments (.legacy ((u, sub) :: rest)) none
      = User.parse_arguments (.legacy [(u, sub)]) none
    ∧ User.parse_arguments (.legacy ((u, sub) :: rest)) none
      = .ok (if pw = "" then []
             else [{ username := u, password := pw, «sudo» := false }]) := by
  by_cases hpw : pw = ""
  · have h1 : User._parse_backwards_compatible ((u, sub) :: rest) false = .ok [] := by
      rw [pbc_eq]
      simp [h, hpw]
    have h2 : User._parse_backwards_compatible [(u, sub)] false = .ok [] := by
      rw [pbc_eq]
      simp [h, hpw]
    rw [pa_legacy_none h1, pa_legacy_none h2]
    simp [hpw]
  · have h1 : User._parse_backwards_compatible ((u, sub) :: rest) false
        = .ok [{ username := u, password := pw, «sudo» := false }] := by
      rw [pbc_eq]
      simp [h, hpw]
    have h2 : User._parse_backwards_compatible [(u, sub)] false
        = .ok [{ username := u, password := pw, «sudo» := false }] := by
      rw [pbc_eq]
      simp [h, hpw]
    rw [pa_legacy_none h1, pa_legacy_none h2]
    simp [hpw]

/-- Witness for C5 at a concrete input: a two-entry legacy mapping whose
second entry is ignored. -/
theorem parse_legacy_first_key_only_wit :
    User.parse_arguments
        (.legacy [("root", [(passwordKey, "pw")]), ("ada", [(passwordKey, "q")])]) none
      = User.parse_arguments (.legacy [("root", [(passwordKey, "pw")])]) none
    ∧ User.parse_arguments
        (.legacy [("root", [(passwordKey, "pw")]), ("ada", [(passwordKey, "q")])]) none
      = .ok (if ("pw" : String) = "" then []
             else [{ username := "root", password := "pw", «sudo» := false }]) :=
  parse_legacy_first_key_only "root" [(passwordKey, "pw")]
    [("ada", [(passwordKey, "q")])] "pw" (dictGet_cons_self _ _ _)

/-- Claim C6: the output of `parse_arguments` is the records obtained
from `config_users` followed by the records (at most one) extracted from
the legacy `config_superusers`; the appended record always has
`sudo = true`; and nothing is appended when `config_superusers` is empty
or its first entry's password is empty (when it is absent the call with
`none` is itself the first hypothesis). -/
theorem parse_arguments_merge_rule (ui : UsersInput) (sup : LegacyDict) (us ss : List User)
    (h1 : User.parse_arguments ui none = .ok us)
    (h2 : User._parse_backwards_compatible sup true = .ok ss) :
    User.parse_arguments ui (some sup) = .ok (us ++ ss)
    ∧ (∀ r ∈ ss, r.sudo = true)
    ∧ ss.length ≤ 1
    ∧ (sup = [] → ss = [])
    ∧ ∀ u sub rest, sup = (u, sub) :: rest → dictGet sub passwordKey = some "" →
        ss = [] := by
  refine ⟨pa_append h1 h2, ?_, ?_, ?_, ?_⟩
  · rcases pbc_ok_cases h2 with rfl | ⟨u, sub, rest, pw, hd, hpw, hne, rfl⟩
    · simp
    · simp
  · rcases pbc_ok_cases h2 with rfl | ⟨u, sub, rest, pw, hd, hpw, hne, rfl⟩
    · simp
    · simp
  · rintro rfl
    rw [pbc_eq] at h2
    simpa using h2.symm
  · rintro u sub rest rfl hpw
    rw [pbc_eq] at h2
    simp only [hpw] at h2
    simpa using h2.symm

/-- Witness for C6 at a concrete input: one current-shape user followed
by one legacy superuser. -/
theorem parse_arguments_merge_rule_wit :
    User.parse_arguments
        (.current [{ username := some (some "ada"), password := some "x", «sudo» := some true }])
        (some [("admin", [(passwordKey, "pw")])])
      = .ok ([{ username := "ada", password := "x", «sudo» := true }]
          ++ [{ username := "admin", password := "pw", «sudo» := true }])
    ∧ (∀ r ∈ ([{ username := "admin", password := "pw", «sudo» := true }] : List User),
        r.sudo = true)
    ∧ ([{ username := "admin", password := "pw", «sudo» := true }] : List User).length ≤ 1
    ∧ ([("admin", [(passwordKey, "pw")])] = ([] : LegacyDict)
        → [{ username := "admin", password := "pw", «sudo» := true }] = ([] : List User))
    ∧ ∀ u sub rest,
        [("admin", [(passwordKey, "pw")])] = (u, sub) :: rest
        → dictGet sub passwordKey = some ""
        → [{ username := "admin", password := "pw", «sudo» := true }] = ([] : List User) :=
  parse_arguments_merge_rule
    (.current [{ username := some (some "ada"), password := some "x", «sudo» := some true }])
    [("admin", [(passwordKey, "pw")])]
    [{ username := "ada", password := "x", «sudo» := true }]
    [{ username := "admin", password := "pw", «sudo» := true }]
    rfl rfl

/-- Claim C7: serializing any record with `User.json` is total — it is a
plain function into the entry shape — and parsing the one-element
sequence `[r.json]` as current-shape `config_users` with an empty legacy
superusers mapping reproduces exactly `[r]`. -/
theorem json_parse_round_trip (r : User) :
    User.parse_arguments (.current [r.json]) (some []) = .ok [r] := by
  cases r with
  | mk un pw sd =>
    simp [User.parse_arguments, User._parse, User.json, Entry.getUsername,
      Entry.getPassword, Entry.getSudo, User._parse_backwards_compatible]

/-- Counterexample to Claim C8 as stated: the current shape accepts an
entry whose username is present but is the empty string, and the parser
emits a record whose username is empty. -/
theorem parse_username_can_be_empty :
    User.parse_arguments
        (.current [{ username := some (some ""), password := some "x", «sudo» := some false }])
        none
      = .ok [{ username := "", password := "x", «sudo» := false }]
    ∧ ({ username := "", password := "x", «sudo» := false } : User).username = "" :=
  ⟨rfl, rfl⟩

/-- Claim C8 amended: for every well-formed input all of whose usernames
(entry username values for the current shape, mapping keys for the legacy
shapes) are non-empty, every record in the output of `parse_arguments`
has a non-empty username. -/
theorem parse_usernames_nonempty (ui : UsersInput) (sup : Option LegacyDict) (us : List User)
    (h1 : ui.usernamesNonEmpty)
    (h2 : ∀ d, sup = some d → ∀ p ∈ d, p.1 ≠ "")
    (h3 : User.parse_arguments ui sup = .ok us) :
    ∀ r ∈ us, r.username ≠ "" := by
  cases sup with
  | none => exact pa_none_usernames h1 h3
  | some d =>
    obtain ⟨a, b, rfl, ha, hb⟩ := pa_ok_split h3
    intro r hr
    rcases List.mem_append.mp hr with hra | hrb
    · exact pa_none_usernames h1 ha r hra
    · rcases pbc_ok_cases hb with rfl | ⟨u, sub, rest, pw, hd, hpw, hne, rfl⟩
      · simp at hrb
      · have hu : r.username = u := by
          simp at hrb
          simp [hrb]
        rw [hu]
        exact h2 d rfl (u, sub) (by simp [hd])

/-- Witness for the amended C8 at a concrete input: one current-shape
user plus one legacy superuser, all usernames non-empty. -/
theorem parse_usernames_nonempty_wit :
    ({ username := "admin", password := "pw", «sudo» := true } : User).username ≠ "" :=
  parse_usernames_nonempty
    (.current [{ username := some (some "ada"), password := some "x", «sudo» := some true }])
    (some [("admin", [(passwordKey, "pw")])])
    [{ username := "ada", password := "x", «sudo» := true },
     { username := "admin", password := "pw", «sudo» := true }]
    (by intro e he u hu; simp at he; simp [he, Entry.getUsername] at hu; simp [← hu])
    (by
      intro d hd p hp
      simp only [Option.some.injEq] at hd
      subst hd
      simp at hp
      simp [hp])
    rfl
    { username := "admin", password := "pw", «sudo» := true }
    (by simp)

/-- Claim C9: the classifier is total — every string, the empty one
included, is mapped to one of the four categories — and `parse_arguments`
raises nothing on well-formed input: a current-shape entry list, or a
legacy mapping whose sub-mappings contain the `'!password'` key, plus an
optional such superusers mapping, always produce an `.ok` result. -/
theorem classify_parse_no_failure :
    (∀ password : List PyChar,
        PasswordStrength.strength password = .VERY_WEAK
        ∨ PasswordStrength.strength password = .WEAK
        ∨ PasswordStrength.strength password = .MODERATE
        ∨ PasswordStrength.strength password = .STRONG)
    ∧ ∀ ui sup, WellFormedInput ui sup →
        ∃ us, User.parse_arguments ui sup = .ok us := by
  constructor
  · intro p
    cases h : PasswordStrength.strength p <;> simp
  · rintro ui sup ⟨hui, hsup⟩
    have hu : ∃ a, User.parse_arguments ui none = .ok a := by
      cases ui with
      | current l => exact ⟨_, pa_current_none l⟩
      | legacy d =>
        obtain ⟨a, ha⟩ := pbc_wf_ok (hui d rfl) false
        exact ⟨a, pa_legacy_none ha⟩
    obtain ⟨a, ha⟩ := hu
    cases sup with
    | none => exact ⟨a, ha⟩
    | some d =>
      obtain ⟨b, hb⟩ := pbc_wf_ok (hsup d rfl) true
      exact ⟨a ++ b, pa_append ha hb⟩
